import Mathlib

/-!
Verification of the macro-series aggregation and derived-metrics engine of
`src/server.js` (macro-dashboard).  Each JavaScript function of the core is
shallowly embedded as a Lean definition over rational numbers (JavaScript
numbers carry no NaN/Infinity here: the code filters every parsed value with
`Number.isFinite` before use, and a possibly non-finite or missing value is
modelled as `none`).  Date strings are compared lexicographically, exactly as
the source compares ISO date strings with `<=` / `<`; the comparison is
embedded on the underlying character list (`String.data`), which is
propositionally the same order as Mathlib's `String` order.

Effectful parts (network fetches, `Date.now()`, the cache file) are made
explicit parameters: a fetch outcome is an `Except` value, the clock is an
integer epoch-millisecond argument, and the persisted cache snapshot is
threaded in and out of the cache-manager functions.  Calendar-event fields
and the `generatedAt` ISO timestamp of the payload are not modelled: they
only echo the wall clock and no claim concerns them.
-/

namespace MacroDash

/-- Lexicographic order on ISO date strings, as the source's `a.date <= b.date`
on strings; embedded on `String.data` (the character list). -/
def dateLe (a b : String) : Prop := a.data ≤ b.data

instance : DecidableRel dateLe := fun a b => inferInstanceAs (Decidable (a.data ≤ b.data))

/-- Strict lexicographic order on ISO date strings (`a.date < b.date`). -/
def dateLt (a b : String) : Prop := a.data < b.data

instance : DecidableRel dateLt := fun a b => inferInstanceAs (Decidable (a.data < b.data))

/-- A validated observation `{ date, value }` with a finite numeric value
(`Observation` of the spec's data model). -/
structure Obs where
  date : String
  value : ℚ
deriving DecidableEq

/-- A raw `{ date, value }` point before validation: `value = none` models a
missing or non-finite (`NaN`, `Infinity`, `undefined`) numeric value, and an
empty `date` models a falsy date field. -/
structure RawObs where
  date : String
  value : Option ℚ
deriving DecidableEq

/-- `a.date <= b.date` on observations; the comparator used by the source's
`.sort((a, b) => (a.date < b.date ? -1 : a.date > b.date ? 1 : 0))`, whose
effect (JavaScript sorts are stable) is a stable sort by this relation. -/
def obsLe (a b : Obs) : Prop := dateLe a.date b.date

instance : DecidableRel obsLe := fun a b => inferInstanceAs (Decidable (a.date.data ≤ b.date.data))

instance : IsTrans Obs obsLe := ⟨fun _ _ _ hab hbc => le_trans hab hbc⟩

instance : IsTotal Obs obsLe := ⟨fun a b => le_total a.date.data b.date.data⟩

/-- `Number(x.toFixed(2))`: round to 2 decimal places (ties toward +infinity,
as ECMA-262 `toFixed` picks the larger candidate). -/
def round2 (q : ℚ) : ℚ := (⌊q * 100 + 1 / 2⌋ : ℚ) / 100

/-- `Number(x.toFixed(1))`: round to 1 decimal place. -/
def round1 (q : ℚ) : ℚ := (⌊q * 10 + 1 / 2⌋ : ℚ) / 10

/-- `Math.min(...values)` for a non-empty list (the callers guard emptiness). -/
def minOf : List ℚ → ℚ
  | [] => 0
  | v :: vs => vs.foldl min v

/-- `Math.max(...values)` for a non-empty list. -/
def maxOf : List ℚ → ℚ
  | [] => 0
  | v :: vs => vs.foldl max v

/-- `normalizeWindow` (src/server.js 103-109): min-max normalize to 0..100,
with the span replaced by 1 when `max - min` is 0 (`max - min || 1`). -/
def normalizeWindow (values : List ℚ) : List ℚ :=
  match values with
  | [] => []
  | v :: vs =>
      let mn := minOf (v :: vs)
      let mx := maxOf (v :: vs)
      let span := if mx - mn = 0 then 1 else mx - mn
      (v :: vs).map (fun x => (x - mn) / span * 100)

/-- `arr.slice(-n)` for `0 < n` (and for `n` at least the length it is the
whole array, matching `slice`). -/
def tailN (n : ℕ) (l : List α) : List α := l.drop (l.length - n)

/-- One row of the composite series (`Liquidity Point` of the data model). -/
structure LiquidityPoint where
  date : String
  netLiquidityIndex : ℚ
  walcl : ℚ
  rrp : ℚ
  tga : ℚ
deriving DecidableEq

/-- `computeLiquiditySeries` (src/server.js 111-134). -/
def computeLiquiditySeries (walcl rrp tga : List Obs) : List LiquidityPoint :=
  let len := min (min walcl.length rrp.length) tga.length
  if len = 0 then []
  else
    let walclTail := (tailN len walcl).map (·.value)
    let rrpTail := (tailN len rrp).map (·.value)
    let tgaTail := (tailN len tga).map (·.value)
    let dates := (tailN len walcl).map (·.date)
    let walclNorm := normalizeWindow walclTail
    let rrpNorm := normalizeWindow rrpTail
    let tgaNorm := normalizeWindow tgaTail
    (List.range len).map (fun idx =>
      let net := walclNorm.getD idx 0 - rrpNorm.getD idx 0 - tgaNorm.getD idx 0
      { date := dates.getD idx ""
        netLiquidityIndex := round2 net
        walcl := walclTail.getD idx 0
        rrp := rrpTail.getD idx 0
        tga := tgaTail.getD idx 0 })

/-- A `{ current, avg30 }` pair handed to the regime classifier; `none` models
a value that fails `Number.isFinite` (absent, null, NaN or infinite). -/
structure TrendPair where
  current : Option ℚ
  avg30 : Option ℚ
deriving DecidableEq

/-- The classifier's input record. -/
structure RegimeInput where
  liquidityIndex : TrendPair
  tenYearYield : TrendPair
  realYield : TrendPair
  dxy : TrendPair
deriving DecidableEq

/-- The classifier's output (`Regime` of the data model). -/
structure Regime where
  liquidity : String
  rates : String
  macroRisk : String
  rationale : List String
deriving DecidableEq

/-- Two-digit left pad for the fractional part of a fixed-point print. -/
def pad2 (n : ℕ) : String := if n < 10 then "0" ++ toString n else toString n

/-- `x.toFixed(2)`: sign taken from the value, then the magnitude rounded to
two decimals (ties toward the larger candidate). -/
def fmt2 (q : ℚ) : String :=
  let s := if q < 0 then "-" else ""
  let n := (⌊|q| * 100 + 1 / 2⌋).toNat
  s ++ toString (n / 100) ++ "." ++ pad2 (n % 100)

/-- `classifyRegime` (src/server.js 136-182).  The source's guard is a single
`if` over `!Number.isFinite(x)` for the eight inputs; a non-finite input is
`none` here, and in the guarded branch (where every input is `some`) the
source's direct uses of the numbers are embedded with `Option.getD 0`. -/
def classifyRegime (inp : RegimeInput) : Regime :=
  if inp.liquidityIndex.current = none ∨ inp.liquidityIndex.avg30 = none
      ∨ inp.tenYearYield.current = none ∨ inp.tenYearYield.avg30 = none
      ∨ inp.realYield.current = none ∨ inp.realYield.avg30 = none
      ∨ inp.dxy.current = none ∨ inp.dxy.avg30 = none then
    { liquidity := "Unknown"
      rates := "Unknown"
      macroRisk := "Unknown"
      rationale := ["Not enough macro inputs yet. Configure FRED and refresh."] }
  else
      let liqTrend := inp.liquidityIndex.current.getD 0 - inp.liquidityIndex.avg30.getD 0
      let ratesTrend := inp.tenYearYield.current.getD 0 - inp.tenYearYield.avg30.getD 0
      let realTrend := inp.realYield.current.getD 0 - inp.realYield.avg30.getD 0
      let dxyTrend := inp.dxy.current.getD 0 - inp.dxy.avg30.getD 0
      let liquidity := if 0 ≤ liqTrend then "Expanding" else "Contracting"
      let rates := if ratesTrend ≤ 0 then "Easing" else "Tightening"
      let riskScore : ℕ :=
        (if liqTrend < 0 then 1 else 0) + (if 0 < ratesTrend then 1 else 0)
          + (if 0 < realTrend then 1 else 0) + (if 0 < dxyTrend then 1 else 0)
      let macroRisk := if riskScore ≤ 1 then "Low" else if riskScore ≤ 2 then "Medium" else "High"
      { liquidity := liquidity
        rates := rates
        macroRisk := macroRisk
        rationale := [
          "Liquidity trend vs 30D: " ++ (if 0 ≤ liqTrend then "+" else "") ++ fmt2 liqTrend
            ++ " index pts",
          "10Y nominal trend vs 30D: " ++ (if 0 ≤ ratesTrend then "+" else "") ++ fmt2 ratesTrend
            ++ "%",
          "10Y real trend vs 30D: " ++ (if 0 ≤ realTrend then "+" else "") ++ fmt2 realTrend
            ++ "%",
          "DXY trend vs 30D: " ++ (if 0 ≤ dxyTrend then "+" else "") ++ fmt2 dxyTrend] }

/-- `latest` (src/server.js 93-95): the last point of a series, or null. -/
def latest (points : List α) : Option α := points.getLast?

/-- `rollingAverage` (src/server.js 97-101): trailing mean of the last `size`
values, null when fewer than `size` values exist or `size` is not positive. -/
def rollingAverage (values : List ℚ) (size : ℕ) : Option ℚ :=
  if values.length < size ∨ size = 0 then none
  else some (((tailN size values).foldl (· + ·) 0) / (size : ℚ))

/-- A per-indicator `{ ok, error? }` record (`Series Status` of the data model). -/
structure SeriesStatus where
  ok : Bool
  error : Option String
deriving DecidableEq

/-- A `{ date, value }` metric cell where either side may be null
(`curveSpread` and `netLiquidityIndex` of the payload's metrics). -/
structure DatedValue where
  date : Option String
  value : Option ℚ
deriving DecidableEq

/-- The `metrics` object of the macro payload: latest observation per
indicator, the curve spread and the net liquidity index. -/
structure Metrics where
  fedBalanceSheet : Option Obs
  reverseRepo : Option Obs
  treasuryGeneralAccount : Option Obs
  tenYearYield : Option Obs
  twoYearYield : Option Obs
  realTenYearYield : Option Obs
  dxyBroad : Option Obs
  curveSpread : DatedValue
  netLiquidityIndex : DatedValue
deriving DecidableEq

/-- The `Macro Payload` aggregate root.  `cacheState` and `cacheAgeMinutes`
are `none` when the corresponding JSON fields are absent.  The calendar
`events` array and the `generatedAt` timestamp are not modelled (they echo
the wall clock only). -/
structure MacroPayload where
  metrics : Metrics
  liquiditySeries : List LiquidityPoint
  regime : Regime
  seriesStatus : List (String × SeriesStatus)
  okSeriesCount : ℕ
  totalSeriesCount : ℕ
  cacheState : Option String
  cacheAgeMinutes : Option ℚ
deriving DecidableEq

/-- The persisted `Cache Snapshot`: `{ cachedAt: Date.now(), payload }`. -/
structure Snapshot where
  cachedAt : ℤ
  payload : MacroPayload
deriving DecidableEq

/-- `MACRO_CACHE_TTL_MS` (src/server.js 10): 15 minutes. -/
def MACRO_CACHE_TTL_MS : ℤ := 15 * 60 * 1000

/-- The seven per-indicator FRED series of `FRED_SERIES` (src/server.js
24-32), as the fetched observation lists keyed by the object's fields. -/
structure SeriesMap where
  fedBalanceSheet : List Obs
  reverseRepo : List Obs
  treasuryGeneralAccount : List Obs
  tenYearYield : List Obs
  twoYearYield : List Obs
  realTenYearYield : List Obs
  dxyBroad : List Obs
deriving DecidableEq

instance : DecidableEq (Except String (List Obs)) := fun a b =>
  match a, b with
  | .ok x, .ok y =>
      if h : x = y then .isTrue (congrArg Except.ok h)
      else .isFalse (fun hc => h (Except.ok.inj hc))
  | .error x, .error y =>
      if h : x = y then .isTrue (congrArg Except.error h)
      else .isFalse (fun hc => h (Except.error.inj hc))
  | .ok _, .error _ => .isFalse (fun hc => Except.noConfusion hc)
  | .error _, .ok _ => .isFalse (fun hc => Except.noConfusion hc)

/-- The outcome of the seven concurrent `fetchFredSeries` calls inside one
refresh: per indicator either the fetched (already validated) points or the
thrown error's message. -/
structure FetchMap where
  fedBalanceSheet : Except String (List Obs)
  reverseRepo : Except String (List Obs)
  treasuryGeneralAccount : Except String (List Obs)
  tenYearYield : Except String (List Obs)
  twoYearYield : Except String (List Obs)
  realTenYearYield : Except String (List Obs)
  dxyBroad : Except String (List Obs)
deriving DecidableEq

/-- The points recorded for one indicator: the fetched list, or `[]` when the
fetch failed (the catch branch of `refreshMacroCache`'s entry mapper). -/
def seriesOf : Except String (List Obs) → List Obs
  | .ok pts => pts
  | .error _ => []

/-- The status recorded for one indicator (`{ ok: true }` or
`{ ok: false, error: error.message || "Fetch failed" }`). -/
def statusOf : Except String (List Obs) → SeriesStatus
  | .ok _ => { ok := true, error := none }
  | .error e => { ok := false, error := some (if e = "" then "Fetch failed" else e) }

/-- `latest(dgs10)?.date || null`: the date of an optional observation, with
an empty (falsy) date collapsed to null. -/
def dateOrNull : Option Obs → Option String
  | some o => if o.date = "" then none else some o.date
  | none => none

/-- `buildMacroPayload` (src/server.js 687-754), without the calendar-event
and `generatedAt` fields. -/
def buildMacroPayload (seriesMap : SeriesMap) (statusMap : List (String × SeriesStatus)) :
    MacroPayload :=
  let walcl := seriesMap.fedBalanceSheet
  let rrp := seriesMap.reverseRepo
  let tga := seriesMap.treasuryGeneralAccount
  let dgs10 := seriesMap.tenYearYield
  let dgs2 := seriesMap.twoYearYield
  let dfii10 := seriesMap.realTenYearYield
  let dxy := seriesMap.dxyBroad
  let liq := computeLiquiditySeries walcl rrp tga
  let liqValues := liq.map (·.netLiquidityIndex)
  let tenCurrent := (latest dgs10).map (·.value)
  let twoCurrent := (latest dgs2).map (·.value)
  let realCurrent := (latest dfii10).map (·.value)
  let dxyCurrent := (latest dxy).map (·.value)
  let regime := classifyRegime {
    liquidityIndex := { current := liqValues.getLast?, avg30 := rollingAverage liqValues 30 }
    tenYearYield := { current := tenCurrent, avg30 := rollingAverage (dgs10.map (·.value)) 30 }
    realYield := { current := realCurrent, avg30 := rollingAverage (dfii10.map (·.value)) 30 }
    dxy := { current := dxyCurrent, avg30 := rollingAverage (dxy.map (·.value)) 30 } }
  let okCount := statusMap.countP (fun kv => kv.2.ok)
  { metrics := {
      fedBalanceSheet := latest walcl
      reverseRepo := latest rrp
      treasuryGeneralAccount := latest tga
      tenYearYield := latest dgs10
      twoYearYield := latest dgs2
      realTenYearYield := latest dfii10
      dxyBroad := latest dxy
      curveSpread := {
        date := dateOrNull (latest dgs10)
        value := match tenCurrent, twoCurrent with
          | some a, some b => some (round2 (a - b))
          | _, _ => none }
      netLiquidityIndex := {
        date := match liq.getLast? with
          | some row => if row.date = "" then none else some row.date
          | none => none
        value := liqValues.getLast?.map round2 } }
    liquiditySeries := tailN 260 liq
    regime := regime
    seriesStatus := statusMap
    okSeriesCount := okCount
    totalSeriesCount := statusMap.length
    cacheState := none
    cacheAgeMinutes := none }

/-- `emptyMacroPayload` (src/server.js 756-782). -/
def emptyMacroPayload (reason : String) : MacroPayload :=
  { metrics := {
      fedBalanceSheet := none
      reverseRepo := none
      treasuryGeneralAccount := none
      tenYearYield := none
      twoYearYield := none
      realTenYearYield := none
      dxyBroad := none
      curveSpread := { date := none, value := none }
      netLiquidityIndex := { date := none, value := none } }
    liquiditySeries := []
    regime := {
      liquidity := "Unknown"
      rates := "Unknown"
      macroRisk := "Unknown"
      rationale := [if reason = "" then "Macro data unavailable" else reason] }
    seriesStatus := []
    okSeriesCount := 0
    totalSeriesCount := 7
    cacheState := none
    cacheAgeMinutes := none }

/-- One completed run of `refreshMacroCache`'s inner async block
(src/server.js 787-814), as a function of the seven fetch outcomes, the
clock and the previously persisted snapshot: returns the resolved payload
and the snapshot state after the run (`writeMacroCache` stores
`{ cachedAt: Date.now(), payload }` only when `okSeriesCount > 0`).  The
single-flight promise guard around this block is modelled separately by
`refreshCall` / `refreshSettled`.  `refreshPayload` is the payload the block
builds and tags `fresh` before deciding whether to persist it. -/
def refreshPayload (fetch : FetchMap) : MacroPayload :=
  { buildMacroPayload
      { fedBalanceSheet := seriesOf fetch.fedBalanceSheet
        reverseRepo := seriesOf fetch.reverseRepo
        treasuryGeneralAccount := seriesOf fetch.treasuryGeneralAccount
        tenYearYield := seriesOf fetch.tenYearYield
        twoYearYield := seriesOf fetch.twoYearYield
        realTenYearYield := seriesOf fetch.realTenYearYield
        dxyBroad := seriesOf fetch.dxyBroad }
      [("fedBalanceSheet", statusOf fetch.fedBalanceSheet),
        ("reverseRepo", statusOf fetch.reverseRepo),
        ("treasuryGeneralAccount", statusOf fetch.treasuryGeneralAccount),
        ("tenYearYield", statusOf fetch.tenYearYield),
        ("twoYearYield", statusOf fetch.twoYearYield),
        ("realTenYearYield", statusOf fetch.realTenYearYield),
        ("dxyBroad", statusOf fetch.dxyBroad)] with
    cacheState := some "fresh" }

/-- The observable effect of one `refreshMacroCache` run: the resolved
payload, and the snapshot state afterwards (overwritten only when at least
one indicator status is ok, per `if (payload.okSeriesCount > 0)
writeMacroCache(payload)`). -/
def refreshMacroCache (fetch : FetchMap) (now : ℤ) (prev : Option Snapshot) :
    MacroPayload × Option Snapshot :=
  if 0 < (refreshPayload fetch).okSeriesCount then
    (refreshPayload fetch, some { cachedAt := now, payload := refreshPayload fetch })
  else (refreshPayload fetch, prev)

/-- `getMacroPayload` (src/server.js 822-851) as a function of the persisted
snapshot, the clock and the fetch outcomes a triggered refresh would see;
returns the served payload and the snapshot state afterwards.  The stale
branch serves the old payload and fires the refresh in the background; the
no-cache branch awaits the refresh.  The catch branch returning
`emptyMacroPayload` tagged `error` fires only when the refresh promise
rejects, which needs a cache-write failure; the file-system is modelled as
working, so that branch is unreachable here. -/
def getMacroPayload (cache : Option Snapshot) (now : ℤ) (fetch : FetchMap) :
    MacroPayload × Option Snapshot :=
  match cache with
  | some c =>
      let ageMs := now - c.cachedAt
      if ageMs ≤ MACRO_CACHE_TTL_MS then
        ({ c.payload with
            cacheState := some "fresh"
            cacheAgeMinutes := some (round1 ((ageMs : ℚ) / 60000)) }, cache)
      else
        let refreshed := refreshMacroCache fetch now cache
        ({ c.payload with
            cacheState := some "stale"
            cacheAgeMinutes := some (round1 ((ageMs : ℚ) / 60000)) }, refreshed.2)
  | none => refreshMacroCache fetch now none

/-- The validation-and-adaptation step shared by `alignSeriesToDates` and
`dedupeByDate`: keep a point only when its date is truthy and
`Number(point.value)` is finite. -/
def cleanPoint (p : RawObs) : Option Obs :=
  match p.value with
  | some v => if p.date = "" then none else some { date := p.date, value := v }
  | none => none

/-- The cursor loop body of `alignSeriesToDates`: consume sorted source
points while `sorted[idx].date <= isoDate`, remembering the last value. -/
def advance : List Obs → Option ℚ → String → List Obs × Option ℚ
  | [], last, _ => ([], last)
  | o :: rest, last, d =>
      if dateLe o.date d then advance rest (some o.value) d
      else (o :: rest, last)

/-- The outer loop of `alignSeriesToDates`: one carried-forward value pushed
per target date. -/
def alignLoop : List Obs → Option ℚ → List String → List (Option ℚ)
  | _, _, [] => []
  | src, last, d :: ds =>
      let step := advance src last d
      step.2 :: alignLoop step.1 step.2 ds

/-- `alignSeriesToDates` (src/server.js 364-387): validate, sort by date
(stable), then forward-fill along the target dates. -/
def alignSeriesToDates (points : List RawObs) (isoDates : List String) : List (Option ℚ) :=
  if points.isEmpty ∨ isoDates.isEmpty then []
  else
    let sorted := List.insertionSort obsLe (points.filterMap cleanPoint)
    alignLoop sorted none isoDates

/-- `Map.prototype.set` on an insertion-ordered association list: overwrite
in place when the key exists, else append. -/
def mapSet : List (String × ℚ) → String → ℚ → List (String × ℚ)
  | [], k, v => [(k, v)]
  | (k0, v0) :: rest, k, v =>
      if k0 = k then (k0, v) :: rest else (k0, v0) :: mapSet rest k v

/-- Association-list lookup by key (what `Map.prototype.get` sees). -/
def lookupDate : List (String × ℚ) → String → Option ℚ
  | [], _ => none
  | (k0, v0) :: rest, k => if k0 = k then some v0 else lookupDate rest k

/-- The loop body of `dedupeByDate`: skip an invalid point, else
`map.set(point.date, Number(point.value))`. -/
def dedupeStep (m : List (String × ℚ)) (p : RawObs) : List (String × ℚ) :=
  match cleanPoint p with
  | some o => mapSet m o.date o.value
  | none => m

/-- `dedupeByDate` (src/server.js 389-398): fold the points into a map keyed
by date (skipping invalid points, last write wins), then sort the entries
ascending by date. -/
def dedupeByDate (points : List RawObs) : List Obs :=
  List.insertionSort obsLe
    ((points.foldl dedupeStep []).map fun kv => { date := kv.1, value := kv.2 })

/-- The rows one provider contributes to `sources` inside
`fetchBtcDailySeries`: nothing when its fetch threw, else its parsed rows
filtered to truthy dates and finite values (each provider block filters
before pushing). -/
def providerRows (fetched : Option (List RawObs)) : List RawObs :=
  match fetched with
  | some rows => rows.filter (fun p => decide (p.date ≠ "" ∧ p.value.isSome))
  | none => []

/-- `fetchBtcDailySeries` (src/server.js 400-447) after the three provider
fetches (FRED, CoinGecko, blockchain.info) have settled: concatenate the
providers' validated rows in that order, fail when nothing was collected,
merge by date, and fail when the merged series has no point at or before the
2011-01-01 floor. -/
def fetchBtcDailySeries (fred gecko chain : Option (List RawObs)) : Except String (List Obs) :=
  let sources := providerRows fred ++ providerRows gecko ++ providerRows chain
  if sources.isEmpty then .error "Missing BTC daily history from all sources"
  else
    let merged := dedupeByDate sources
    if merged.any (fun row => decide (dateLe row.date "2011-01-01")) then .ok merged
    else .error "BTC history available but missing pre-2011 coverage"

/-- The single-flight guard state: `macroRefreshPromise` (src/server.js 34)
holding the id of the in-flight refresh, plus a counter of upstream indicator
batches issued so far.  JavaScript's event loop is single threaded, so the
synchronous section of each `refreshMacroCache` call (the null check, the
batch launch and the promise assignment) runs atomically; a call is one step
on this state. -/
structure FlightState where
  inflightId : Option ℕ
  batchesIssued : ℕ
deriving DecidableEq

/-- One call of `refreshMacroCache` seen by the guard (src/server.js
784-820): reuse the in-flight promise, or start a new run and issue one
upstream batch of the seven indicator fetches. -/
def refreshCall (s : FlightState) : ℕ × FlightState :=
  match s.inflightId with
  | some h => (h, s)
  | none => (s.batchesIssued,
      { inflightId := some s.batchesIssued, batchesIssued := s.batchesIssued + 1 })

/-- The `finally` handler (src/server.js 815-817): the in-flight promise is
cleared when the refresh settles. -/
def refreshSettled (s : FlightState) : FlightState := { s with inflightId := none }

/-- The last value of a list of observations, as carried by the alignment
cursor (`none` for the empty list). -/
def lastValueOf : List Obs → Option ℚ
  | [] => none
  | [o] => some o.value
  | _ :: o :: rest => lastValueOf (o :: rest)

/-- The as-of scan a single `advance` performs on a sorted list: walk the
consecutive points with date at most `d`, remembering the last value seen,
starting from `acc`. -/
def asOf : List Obs → Option ℚ → String → Option ℚ
  | [], acc, _ => acc
  | o :: rest, acc, d => if dateLe o.date d then asOf rest (some o.value) d else acc

/-- A fetch map in which every indicator fetch failed. -/
def fetchAllFail : FetchMap :=
  { fedBalanceSheet := .error "Request timed out after 12000ms"
    reverseRepo := .error "Request timed out after 12000ms"
    treasuryGeneralAccount := .error "Request failed (500)"
    tenYearYield := .error "Request failed (500)"
    twoYearYield := .error "Request failed (500)"
    realTenYearYield := .error "Request failed (500)"
    dxyBroad := .error "Request failed (500)" }

/-- A fetch map in which exactly one indicator fetch succeeded. -/
def fetchOneOk : FetchMap :=
  { fetchAllFail with
    tenYearYield := .ok [{ date := "2026-02-10", value := 4 }] }

/-- What min-max normalization promises for one window: wherever the window's
max differs from its min, the normalized value is 100 at an index holding the
max and 0 at an index holding the min. -/
def normSpec (values : List ℚ) : Prop :=
  ∀ i, i < values.length → minOf values ≠ maxOf values →
    ((values.getD i 0 = maxOf values → (normalizeWindow values).getD i 0 = 100) ∧
     (values.getD i 0 = minOf values → (normalizeWindow values).getD i 0 = 0))

/-- At least one of the seven indicator fetches of a refresh succeeded. -/
def anyOk (fetch : FetchMap) : Prop :=
  (∃ pts, fetch.fedBalanceSheet = .ok pts) ∨ (∃ pts, fetch.reverseRepo = .ok pts)
    ∨ (∃ pts, fetch.treasuryGeneralAccount = .ok pts) ∨ (∃ pts, fetch.tenYearYield = .ok pts)
    ∨ (∃ pts, fetch.twoYearYield = .ok pts) ∨ (∃ pts, fetch.realTenYearYield = .ok pts)
    ∨ (∃ pts, fetch.dxyBroad = .ok pts)

/-- Placeholder row used as the (never returned) `getD` fallback. -/
def dfltRow : LiquidityPoint := { date := "", netLiquidityIndex := 0, walcl := 0, rrp := 0, tga := 0 }

/-- Fed balance-sheet fixture series. -/
def wFix : List Obs := [{ date := "2026-01-01", value := 100 }, { date := "2026-01-02", value := 110 }]

/-- Reverse-repo fixture series. -/
def rFix : List Obs := [{ date := "2026-01-01", value := 10 }, { date := "2026-01-02", value := 9 }]

/-- Treasury-account fixture series. -/
def tFix : List Obs := [{ date := "2026-01-01", value := 5 }, { date := "2026-01-02", value := 6 }]

/-- Reverse-repo fixture with the same values as `rFix` but unrelated dates. -/
def rFix2 : List Obs := [{ date := "1999-09-09", value := 10 }, { date := "2030-12-31", value := 9 }]

/-- Treasury-account fixture with the same values as `tFix` but unrelated dates. -/
def tFix2 : List Obs := [{ date := "1111-11-11", value := 5 }, { date := "2999-01-01", value := 6 }]

/-- Fixture input for the classifier: liquidity rising, yields falling,
real yield falling, dollar flat. -/
def inpFix : RegimeInput :=
  { liquidityIndex := { current := some 2, avg30 := some 1 }
    tenYearYield := { current := some 3, avg30 := some 4 }
    realYield := { current := some 1, avg30 := some 2 }
    dxy := { current := some 5, avg30 := some 5 } }

/-- Fixture snapshot written at epoch 0. -/
def snapFix : Snapshot := { cachedAt := 0, payload := emptyMacroPayload "seed" }

/-- Fixture with a duplicated date: the later occurrence must win. -/
def dupFix : List RawObs :=
  [{ date := "2020-01-02", value := some 1 }, { date := "2020-01-01", value := some 2 },
    { date := "2020-01-02", value := some 3 }]

/-- Unsorted fixture source series with one invalid point. -/
def alignPtsFix : List RawObs :=
  [{ date := "2020-01-05", value := some 7 }, { date := "2020-01-01", value := some 3 },
    { date := "2020-01-03", value := none }]

/-- Ascending fixture target dates. -/
def alignDatesFix : List String := ["2019-12-31", "2020-01-02", "2020-01-06"]

theorem foldl_min_le_init (vs : List ℚ) (init : ℚ) : vs.foldl min init ≤ init := by
  induction vs generalizing init with
  | nil => simp
  | cons b t ih => exact le_trans (ih (min init b)) (min_le_left _ _)

theorem foldl_min_le_mem (vs : List ℚ) (init : ℚ) : ∀ a ∈ vs, vs.foldl min init ≤ a := by
  induction vs generalizing init with
  | nil => intro a ha; simp at ha
  | cons b t ih =>
      intro a ha
      rcases List.mem_cons.mp ha with rfl | ha
      · exact le_trans (foldl_min_le_init t (min init a)) (min_le_right _ _)
      · exact ih (min init b) a ha

theorem minOf_le (l : List ℚ) : ∀ a ∈ l, minOf l ≤ a := by
  cases l with
  | nil => intro a ha; simp at ha
  | cons v vs =>
      intro a ha
      rcases List.mem_cons.mp ha with rfl | ha
      · exact foldl_min_le_init vs a
      · exact foldl_min_le_mem vs v a ha

theorem init_le_foldl_max (vs : List ℚ) (init : ℚ) : init ≤ vs.foldl max init := by
  induction vs generalizing init with
  | nil => simp
  | cons b t ih => exact le_trans (le_max_left _ _) (ih (max init b))

theorem mem_le_foldl_max (vs : List ℚ) (init : ℚ) : ∀ a ∈ vs, a ≤ vs.foldl max init := by
  induction vs generalizing init with
  | nil => intro a ha; simp at ha
  | cons b t ih =>
      intro a ha
      rcases List.mem_cons.mp ha with rfl | ha
      · exact le_trans (le_max_right _ _) (init_le_foldl_max t (max init a))
      · exact ih (max init b) a ha

theorem le_maxOf (l : List ℚ) : ∀ a ∈ l, a ≤ maxOf l := by
  cases l with
  | nil => intro a ha; simp at ha
  | cons v vs =>
      intro a ha
      rcases List.mem_cons.mp ha with rfl | ha
      · exact init_le_foldl_max vs a
      · exact mem_le_foldl_max vs v a ha

theorem getD_map_value {α β : Type _} (f : α → β) (l : List α) (i : ℕ) (h : i < l.length)
    (dA : α) (dB : β) : (l.map f).getD i dB = f (l.getD i dA) := by
  rw [List.getD_eq_getElem?_getD, List.getD_eq_getElem?_getD, List.getElem?_map,
    List.getElem?_eq_getElem h]
  simp

theorem getD_range_map {α : Type _} (f : ℕ → α) (n i : ℕ) (h : i < n) (d : α) :
    ((List.range n).map f).getD i d = f i := by
  rw [getD_map_value f (List.range n) i (by simpa using h) 0 d]
  congr 1
  rw [List.getD_eq_getElem?_getD, List.getElem?_range h]
  rfl

theorem getD_eq_getElem_of_lt {α : Type _} (l : List α) (i : ℕ) (h : i < l.length) (d : α) :
    l.getD i d = l[i] := by
  rw [List.getD_eq_getElem?_getD, List.getElem?_eq_getElem h]
  rfl

theorem range_map_getD {α : Type _} (l : List α) (d : α) :
    (List.range l.length).map (fun i => l.getD i d) = l := by
  apply List.ext_getElem (by simp)
  intro i h1 h2
  rw [List.getElem_map, List.getElem_range, getD_eq_getElem_of_lt l i h2 d]

theorem tailN_length {α : Type _} (n : ℕ) (l : List α) (h : n ≤ l.length) :
    (tailN n l).length = n := by
  simp only [tailN, List.length_drop]
  omega

theorem normalizeWindow_getD (l : List ℚ) (i : ℕ) (h : i < l.length) :
    (normalizeWindow l).getD i 0 =
      (l.getD i 0 - minOf l) /
        (if maxOf l - minOf l = 0 then 1 else maxOf l - minOf l) * 100 := by
  cases l with
  | nil => simp at h
  | cons v vs =>
      simp only [normalizeWindow]
      rw [getD_map_value _ _ i h 0 0]

theorem normSpec_holds (l : List ℚ) : normSpec l := by
  intro i hi hne
  have hgd := normalizeWindow_getD l i hi
  have hspan : maxOf l - minOf l ≠ 0 := sub_ne_zero_of_ne (Ne.symm hne)
  constructor
  · intro hmax
    rw [hgd, hmax, if_neg hspan, div_self hspan, one_mul]
  · intro hmin
    rw [hgd, hmin, sub_self, zero_div, zero_mul]

/-- C1: for non-empty balance-sheet, reverse-repo and treasury-account
series, `computeLiquiditySeries` has the length of the shortest input (taken
from the tails), every row's `netLiquidityIndex` is the 2-decimal rounding of
normalized walcl minus normalized rrp minus normalized tga, and each
component's min-max normalization over its window is 100 at its max and 0 at
its min whenever max and min differ. -/
theorem computeLiquiditySeries_C1 (walcl rrp tga : List Obs)
    (hw : walcl ≠ []) (hr : rrp ≠ []) (ht : tga ≠ []) :
    (computeLiquiditySeries walcl rrp tga).length
        = min (min walcl.length rrp.length) tga.length ∧
    (∀ i, i < min (min walcl.length rrp.length) tga.length →
      ((computeLiquiditySeries walcl rrp tga).getD i dfltRow).netLiquidityIndex
        = round2
            ((normalizeWindow ((tailN (min (min walcl.length rrp.length) tga.length) walcl).map
                (fun o => o.value))).getD i 0
              - (normalizeWindow ((tailN (min (min walcl.length rrp.length) tga.length) rrp).map
                (fun o => o.value))).getD i 0
              - (normalizeWindow ((tailN (min (min walcl.length rrp.length) tga.length) tga).map
                (fun o => o.value))).getD i 0)) ∧
    normSpec ((tailN (min (min walcl.length rrp.length) tga.length) walcl).map (fun o => o.value)) ∧
    normSpec ((tailN (min (min walcl.length rrp.length) tga.length) rrp).map (fun o => o.value)) ∧
    normSpec ((tailN (min (min walcl.length rrp.length) tga.length) tga).map (fun o => o.value)) := by
  have hpos : 0 < min (min walcl.length rrp.length) tga.length :=
    lt_min (lt_min (List.length_pos.mpr hw) (List.length_pos.mpr hr)) (List.length_pos.mpr ht)
  have h0 : ¬ (min (min walcl.length rrp.length) tga.length = 0) := by omega
  refine ⟨?_, ?_, normSpec_holds _, normSpec_holds _, normSpec_holds _⟩
  · simp only [computeLiquiditySeries]
    rw [if_neg h0]
    simp
  · intro i hi
    simp only [computeLiquiditySeries]
    rw [if_neg h0, getD_range_map _ _ _ hi]

/-- C1 witness at a concrete input. -/
theorem computeLiquiditySeries_C1_witness :
    wFix ≠ [] ∧ (computeLiquiditySeries wFix rFix tFix).length = 2 := by
  refine ⟨by simp [wFix], ?_⟩
  have h := (computeLiquiditySeries_C1 wFix rFix tFix
    (by simp [wFix]) (by simp [rFix]) (by simp [tFix])).1
  simpa [wFix, rFix, tFix] using h

theorem tailN_map_value (n : ℕ) (l l' : List Obs)
    (h : l'.map (fun o => o.value) = l.map (fun o => o.value)) :
    (tailN n l').map (fun o => o.value) = (tailN n l).map (fun o => o.value) := by
  have hlen : l'.length = l.length := by
    have := congrArg List.length h
    simpa using this
  simp only [tailN, hlen]
  rw [List.map_drop, List.map_drop, h]

/-- C10: the rows of `computeLiquiditySeries` take their dates from the
walcl tail only, pair rrp and tga values by position in their own tails, and
never consult the rrp/tga dates: replacing those dates arbitrarily (same
values) leaves the output unchanged, and no mismatch error exists. -/
theorem computeLiquiditySeries_C10 (walcl rrp tga rrp' tga' : List Obs)
    (hr : rrp'.map (fun o => o.value) = rrp.map (fun o => o.value))
    (ht : tga'.map (fun o => o.value) = tga.map (fun o => o.value)) :
    computeLiquiditySeries walcl rrp' tga' = computeLiquiditySeries walcl rrp tga ∧
    (computeLiquiditySeries walcl rrp tga).map (fun row => row.date)
      = (tailN (min (min walcl.length rrp.length) tga.length) walcl).map (fun o => o.date) ∧
    (∀ i, i < min (min walcl.length rrp.length) tga.length →
      ((computeLiquiditySeries walcl rrp tga).getD i dfltRow).rrp
          = ((tailN (min (min walcl.length rrp.length) tga.length) rrp).map
              (fun o => o.value)).getD i 0 ∧
      ((computeLiquiditySeries walcl rrp tga).getD i dfltRow).tga
          = ((tailN (min (min walcl.length rrp.length) tga.length) tga).map
              (fun o => o.value)).getD i 0) := by
  have hlr : rrp'.length = rrp.length := by
    have := congrArg List.length hr
    simpa using this
  have hlt : tga'.length = tga.length := by
    have := congrArg List.length ht
    simpa using this
  refine ⟨?_, ?_, ?_⟩
  · simp only [computeLiquiditySeries, hlr, hlt, tailN_map_value _ _ _ hr, tailN_map_value _ _ _ ht]
  · by_cases h0 : min (min walcl.length rrp.length) tga.length = 0
    · simp only [computeLiquiditySeries]
      rw [if_pos h0, h0]
      simp [tailN, List.drop_length]
    · have hnw : min (min walcl.length rrp.length) tga.length ≤ walcl.length :=
        le_trans (min_le_left _ _) (min_le_left _ _)
      have hdl : ((tailN (min (min walcl.length rrp.length) tga.length) walcl).map
          (fun o => o.date)).length = min (min walcl.length rrp.length) tga.length := by
        rw [List.length_map, tailN_length _ _ hnw]
      simp only [computeLiquiditySeries]
      rw [if_neg h0, List.map_map]
      conv_rhs => rw [← range_map_getD ((tailN (min (min walcl.length rrp.length) tga.length)
        walcl).map (fun o => o.date)) ""]
      rw [hdl]
      rfl
  · intro i hi
    have h0 : ¬ (min (min walcl.length rrp.length) tga.length = 0) := by omega
    constructor
    · simp only [computeLiquiditySeries]
      rw [if_neg h0, getD_range_map _ _ _ hi]
    · simp only [computeLiquiditySeries]
      rw [if_neg h0, getD_range_map _ _ _ hi]

/-- C10 witness: relabelling the rrp/tga dates of the fixture leaves the
series unchanged. -/
theorem computeLiquiditySeries_C10_witness :
    computeLiquiditySeries wFix rFix2 tFix2 = computeLiquiditySeries wFix rFix tFix :=
  (computeLiquiditySeries_C10 wFix rFix tFix rFix2 tFix2 rfl rfl).1

theorem classifyRegime_unknown_eq (inp : RegimeInput)
    (hc : inp.liquidityIndex.current = none ∨ inp.liquidityIndex.avg30 = none
      ∨ inp.tenYearYield.current = none ∨ inp.tenYearYield.avg30 = none
      ∨ inp.realYield.current = none ∨ inp.realYield.avg30 = none
      ∨ inp.dxy.current = none ∨ inp.dxy.avg30 = none) :
    classifyRegime inp = {
      liquidity := "Unknown"
      rates := "Unknown"
      macroRisk := "Unknown"
      rationale := ["Not enough macro inputs yet. Configure FRED and refresh."] } := by
  simp only [classifyRegime]
  rw [if_pos hc]

theorem classifyRegime_liquidity_known (inp : RegimeInput)
    (hc : ¬ (inp.liquidityIndex.current = none ∨ inp.liquidityIndex.avg30 = none
      ∨ inp.tenYearYield.current = none ∨ inp.tenYearYield.avg30 = none
      ∨ inp.realYield.current = none ∨ inp.realYield.avg30 = none
      ∨ inp.dxy.current = none ∨ inp.dxy.avg30 = none)) :
    (classifyRegime inp).liquidity =
      if 0 ≤ inp.liquidityIndex.current.getD 0 - inp.liquidityIndex.avg30.getD 0
      then "Expanding" else "Contracting" := by
  simp only [classifyRegime]
  rw [if_neg hc]

theorem classifyRegime_rates_known (inp : RegimeInput)
    (hc : ¬ (inp.liquidityIndex.current = none ∨ inp.liquidityIndex.avg30 = none
      ∨ inp.tenYearYield.current = none ∨ inp.tenYearYield.avg30 = none
      ∨ inp.realYield.current = none ∨ inp.realYield.avg30 = none
      ∨ inp.dxy.current = none ∨ inp.dxy.avg30 = none)) :
    (classifyRegime inp).rates =
      if inp.tenYearYield.current.getD 0 - inp.tenYearYield.avg30.getD 0 ≤ 0
      then "Easing" else "Tightening" := by
  simp only [classifyRegime]
  rw [if_neg hc]

theorem classifyRegime_macroRisk_known (inp : RegimeInput)
    (hc : ¬ (inp.liquidityIndex.current = none ∨ inp.liquidityIndex.avg30 = none
      ∨ inp.tenYearYield.current = none ∨ inp.tenYearYield.avg30 = none
      ∨ inp.realYield.current = none ∨ inp.realYield.avg30 = none
      ∨ inp.dxy.current = none ∨ inp.dxy.avg30 = none)) :
    (classifyRegime inp).macroRisk =
      if ((if inp.liquidityIndex.current.getD 0 - inp.liquidityIndex.avg30.getD 0 < 0
            then (1 : ℕ) else 0)
          + (if 0 < inp.tenYearYield.current.getD 0 - inp.tenYearYield.avg30.getD 0
            then 1 else 0)
          + (if 0 < inp.realYield.current.getD 0 - inp.realYield.avg30.getD 0 then 1 else 0)
          + (if 0 < inp.dxy.current.getD 0 - inp.dxy.avg30.getD 0 then 1 else 0)) ≤ 1
      then "Low"
      else if ((if inp.liquidityIndex.current.getD 0 - inp.liquidityIndex.avg30.getD 0 < 0
            then (1 : ℕ) else 0)
          + (if 0 < inp.tenYearYield.current.getD 0 - inp.tenYearYield.avg30.getD 0
            then 1 else 0)
          + (if 0 < inp.realYield.current.getD 0 - inp.realYield.avg30.getD 0 then 1 else 0)
          + (if 0 < inp.dxy.current.getD 0 - inp.dxy.avg30.getD 0 then 1 else 0)) ≤ 2
      then "Medium" else "High" := by
  simp only [classifyRegime]
  rw [if_neg hc]

/-- C2: the regime is Unknown on all three axes exactly when one of the
eight inputs is non-finite; otherwise the liquidity axis is Expanding
exactly when current is at least the 30-sample average, the rates axis is
Easing exactly when current is at most the average, and the four-point risk
score sends 0 and 1 to Low, 2 to Medium, and 3 and 4 to High. -/
theorem classifyRegime_C2 (inp : RegimeInput) :
    (((classifyRegime inp).liquidity = "Unknown" ∧ (classifyRegime inp).rates = "Unknown" ∧
        (classifyRegime inp).macroRisk = "Unknown") ↔
      (inp.liquidityIndex.current = none ∨ inp.liquidityIndex.avg30 = none
        ∨ inp.tenYearYield.current = none ∨ inp.tenYearYield.avg30 = none
        ∨ inp.realYield.current = none ∨ inp.realYield.avg30 = none
        ∨ inp.dxy.current = none ∨ inp.dxy.avg30 = none)) ∧
    (∀ lc la tc ta rc ra dc da : ℚ,
      inp = { liquidityIndex := { current := some lc, avg30 := some la }
              tenYearYield := { current := some tc, avg30 := some ta }
              realYield := { current := some rc, avg30 := some ra }
              dxy := { current := some dc, avg30 := some da } } →
      ((classifyRegime inp).liquidity = "Expanding" ↔ la ≤ lc) ∧
      ((classifyRegime inp).liquidity = "Contracting" ↔ ¬ la ≤ lc) ∧
      ((classifyRegime inp).rates = "Easing" ↔ tc ≤ ta) ∧
      ((classifyRegime inp).rates = "Tightening" ↔ ¬ tc ≤ ta) ∧
      (∀ s : ℕ,
        s = (if lc - la < 0 then (1 : ℕ) else 0) + (if 0 < tc - ta then 1 else 0)
          + (if 0 < rc - ra then 1 else 0) + (if 0 < dc - da then 1 else 0) →
        ((s = 0 ∨ s = 1) → (classifyRegime inp).macroRisk = "Low") ∧
        (s = 2 → (classifyRegime inp).macroRisk = "Medium") ∧
        ((s = 3 ∨ s = 4) → (classifyRegime inp).macroRisk = "High"))) := by
  constructor
  · by_cases hc : (inp.liquidityIndex.current = none ∨ inp.liquidityIndex.avg30 = none
        ∨ inp.tenYearYield.current = none ∨ inp.tenYearYield.avg30 = none
        ∨ inp.realYield.current = none ∨ inp.realYield.avg30 = none
        ∨ inp.dxy.current = none ∨ inp.dxy.avg30 = none)
    · refine iff_of_true ?_ hc
      rw [classifyRegime_unknown_eq inp hc]
      exact ⟨rfl, rfl, rfl⟩
    · refine iff_of_false ?_ hc
      intro h
      have hL := h.1
      rw [classifyRegime_liquidity_known inp hc] at hL
      revert hL
      split_ifs <;> decide
  · intro lc la tc ta rc ra dc da heq
    subst heq
    refine ⟨?_, ?_, ?_, ?_, ?_⟩
    · rw [classifyRegime_liquidity_known _ (by simp)]
      dsimp only [Option.getD]
      by_cases h : 0 ≤ lc - la
      · rw [if_pos h]
        exact iff_of_true rfl (sub_nonneg.mp h)
      · rw [if_neg h]
        exact iff_of_false (by decide) (fun hle => h (sub_nonneg.mpr hle))
    · rw [classifyRegime_liquidity_known _ (by simp)]
      dsimp only [Option.getD]
      by_cases h : 0 ≤ lc - la
      · rw [if_pos h]
        exact iff_of_false (by decide) (fun hn => hn (sub_nonneg.mp h))
      · rw [if_neg h]
        exact iff_of_true rfl (fun hle => h (sub_nonneg.mpr hle))
    · rw [classifyRegime_rates_known _ (by simp)]
      dsimp only [Option.getD]
      by_cases h : tc - ta ≤ 0
      · rw [if_pos h]
        exact iff_of_true rfl (sub_nonpos.mp h)
      · rw [if_neg h]
        exact iff_of_false (by decide) (fun hle => h (sub_nonpos.mpr hle))
    · rw [classifyRegime_rates_known _ (by simp)]
      dsimp only [Option.getD]
      by_cases h : tc - ta ≤ 0
      · rw [if_pos h]
        exact iff_of_false (by decide) (fun hn => hn (sub_nonpos.mp h))
      · rw [if_neg h]
        exact iff_of_true rfl (fun hle => h (sub_nonpos.mpr hle))
    · intro s hs
      rw [classifyRegime_macroRisk_known _ (by simp)]
      dsimp only [Option.getD]
      rw [← hs]
      refine ⟨?_, ?_, ?_⟩
      · rintro (rfl | rfl) <;> decide
      · rintro rfl
        decide
      · rintro (rfl | rfl) <;> decide

/-- C2 witness: on the fixture the liquidity axis is Expanding. -/
theorem classifyRegime_C2_witness : (classifyRegime inpFix).liquidity = "Expanding" := by
  have h := ((classifyRegime_C2 inpFix).2 2 1 3 4 1 2 5 5 rfl).1
  exact h.mpr (by norm_num)

theorem statusOf_ok_iff (r : Except String (List Obs)) :
    (statusOf r).ok = true ↔ ∃ pts, r = .ok pts := by
  cases r <;> simp [statusOf]

theorem refreshMacroCache_fst (fetch : FetchMap) (now : ℤ) (prev : Option Snapshot) :
    (refreshMacroCache fetch now prev).1 = refreshPayload fetch := by
  unfold refreshMacroCache
  split <;> rfl

theorem refreshPayload_okCount_pos_iff (fetch : FetchMap) :
    0 < (refreshPayload fetch).okSeriesCount ↔ anyOk fetch := by
  simp [refreshPayload, buildMacroPayload, anyOk, List.countP_pos_iff, statusOf_ok_iff]

theorem refreshMacroCache_snd_pos (fetch : FetchMap) (now : ℤ) (prev : Option Snapshot)
    (h : anyOk fetch) :
    (refreshMacroCache fetch now prev).2
      = some { cachedAt := now, payload := (refreshMacroCache fetch now prev).1 } := by
  rw [refreshMacroCache_fst]
  unfold refreshMacroCache
  rw [if_pos ((refreshPayload_okCount_pos_iff fetch).mpr h)]

theorem refreshMacroCache_snd_neg (fetch : FetchMap) (now : ℤ) (prev : Option Snapshot)
    (h : ¬ anyOk fetch) :
    (refreshMacroCache fetch now prev).2 = prev := by
  unfold refreshMacroCache
  rw [if_neg (fun hx => h ((refreshPayload_okCount_pos_iff fetch).mp hx))]

/-- C4: a refresh with at least one indicator fetched overwrites the
snapshot with its own payload stamped at the refresh time, and a refresh in
which every indicator fetch failed leaves the previously persisted snapshot
untouched. -/
theorem refreshMacroCache_C4 (fetch : FetchMap) (now : ℤ) (prev : Option Snapshot) :
    (anyOk fetch →
      (refreshMacroCache fetch now prev).2
        = some { cachedAt := now, payload := (refreshMacroCache fetch now prev).1 }) ∧
    (¬ anyOk fetch → (refreshMacroCache fetch now prev).2 = prev) :=
  ⟨refreshMacroCache_snd_pos fetch now prev, refreshMacroCache_snd_neg fetch now prev⟩

/-- C4 witness: with exactly one successful indicator the snapshot is
overwritten. -/
theorem refreshMacroCache_C4_witness :
    (refreshMacroCache fetchOneOk 5 none).2
      = some { cachedAt := 5, payload := (refreshMacroCache fetchOneOk 5 none).1 } :=
  (refreshMacroCache_C4 fetchOneOk 5 none).1
    (Or.inr (Or.inr (Or.inr (Or.inl ⟨[{ date := "2026-02-10", value := 4 }], rfl⟩))))

/-- C3 counterexample: with no cache snapshot and every indicator fetch
failing, `getMacroPayload` resolves with `cacheState = "fresh"`, not the
`"error"` tag the claim requires for total failure. -/
theorem getMacroPayload_C3_cex :
    (getMacroPayload none 0 fetchAllFail).1.cacheState = some "fresh" ∧
    (getMacroPayload none 0 fetchAllFail).1.cacheState ≠ some "error" := by
  refine ⟨rfl, ?_⟩
  have h : (getMacroPayload none 0 fetchAllFail).1.cacheState = some "fresh" := rfl
  rw [h]
  decide

set_option maxRecDepth 8000 in
/-- C3 (amended): with no cache snapshot, `getMacroPayload` awaits one
synchronous refresh and returns its payload, always tagged
`cacheState = "fresh"`; with at least one indicator fetched the snapshot is
written, while on total failure nothing is persisted and the returned
payload carries the empty payload's all-null metrics, an empty liquidity
series, a zero ok-count and an all-Unknown regime (the `"error"` tag would
need the refresh promise itself to reject, which a working cache store never
does). -/
theorem getMacroPayload_C3_amended (fetch : FetchMap) (now : ℤ) :
    ((getMacroPayload none now fetch).1 = (refreshMacroCache fetch now none).1 ∧
      (getMacroPayload none now fetch).1.cacheState = some "fresh") ∧
    (anyOk fetch →
      (getMacroPayload none now fetch).2
        = some { cachedAt := now, payload := (getMacroPayload none now fetch).1 }) ∧
    (¬ anyOk fetch →
      ((getMacroPayload none now fetch).2 = none ∧
       (getMacroPayload none now fetch).1.metrics = (emptyMacroPayload "").metrics ∧
       (getMacroPayload none now fetch).1.liquiditySeries = [] ∧
       (getMacroPayload none now fetch).1.okSeriesCount = 0 ∧
       (getMacroPayload none now fetch).1.regime.liquidity = "Unknown" ∧
       (getMacroPayload none now fetch).1.regime.rates = "Unknown" ∧
       (getMacroPayload none now fetch).1.regime.macroRisk = "Unknown")) := by
  obtain ⟨f1, f2, f3, f4, f5, f6, f7⟩ := fetch
  refine ⟨⟨rfl, ?_⟩, ?_, ?_⟩
  · show (refreshMacroCache ⟨f1, f2, f3, f4, f5, f6, f7⟩ now none).1.cacheState = some "fresh"
    rw [refreshMacroCache_fst]
    rfl
  · intro h
    exact refreshMacroCache_snd_pos _ now none h
  · intro h
    cases f1 with
    | ok pts => exact absurd (Or.inl ⟨pts, rfl⟩) h
    | error e1 =>
    cases f2 with
    | ok pts => exact absurd (Or.inr (Or.inl ⟨pts, rfl⟩)) h
    | error e2 =>
    cases f3 with
    | ok pts => exact absurd (Or.inr (Or.inr (Or.inl ⟨pts, rfl⟩))) h
    | error e3 =>
    cases f4 with
    | ok pts => exact absurd (Or.inr (Or.inr (Or.inr (Or.inl ⟨pts, rfl⟩)))) h
    | error e4 =>
    cases f5 with
    | ok pts => exact absurd (Or.inr (Or.inr (Or.inr (Or.inr (Or.inl ⟨pts, rfl⟩))))) h
    | error e5 =>
    cases f6 with
    | ok pts => exact absurd (Or.inr (Or.inr (Or.inr (Or.inr (Or.inr (Or.inl ⟨pts, rfl⟩)))))) h
    | error e6 =>
    cases f7 with
    | ok pts =>
        exact absurd (Or.inr (Or.inr (Or.inr (Or.inr (Or.inr (Or.inr ⟨pts, rfl⟩)))))) h
    | error e7 =>
    exact ⟨rfl, rfl, rfl, rfl, rfl, rfl, rfl⟩

/-- C3 amended-claim witness at a concrete all-failure input. -/
theorem getMacroPayload_C3_amended_witness :
    (getMacroPayload none 3 fetchAllFail).2 = none ∧
    (getMacroPayload none 3 fetchAllFail).1.okSeriesCount = 0 := by
  have h := (getMacroPayload_C3_amended fetchAllFail 3).2.2 (by
    intro hany
    rcases hany with ⟨pts, hp⟩ | ⟨pts, hp⟩ | ⟨pts, hp⟩ | ⟨pts, hp⟩ | ⟨pts, hp⟩ | ⟨pts, hp⟩
      | ⟨pts, hp⟩ <;> exact Except.noConfusion hp)
  exact ⟨h.1, h.2.2.2.1⟩

/-- C5: a cached read at most 15 minutes old returns the snapshot's payload
tagged fresh with its age in minutes; an older read returns the same
underlying metrics tagged stale with its age in minutes. -/
theorem getMacroPayload_C5 (snap : Snapshot) (now : ℤ) (fetch : FetchMap) :
    (now - snap.cachedAt ≤ MACRO_CACHE_TTL_MS →
      (getMacroPayload (some snap) now fetch).1
        = { snap.payload with
            cacheState := some "fresh"
            cacheAgeMinutes := some (round1 (((now - snap.cachedAt : ℤ) : ℚ) / 60000)) }) ∧
    (MACRO_CACHE_TTL_MS < now - snap.cachedAt →
      ((getMacroPayload (some snap) now fetch).1.metrics = snap.payload.metrics ∧
       (getMacroPayload (some snap) now fetch).1
        = { snap.payload with
            cacheState := some "stale"
            cacheAgeMinutes := some (round1 (((now - snap.cachedAt : ℤ) : ℚ) / 60000)) })) := by
  constructor
  · intro h
    simp only [getMacroPayload]
    rw [if_pos h]
  · intro h
    have h' : ¬ (now - snap.cachedAt ≤ MACRO_CACHE_TTL_MS) := not_le.mpr h
    constructor
    · simp only [getMacroPayload]
      rw [if_neg h']
    · simp only [getMacroPayload]
      rw [if_neg h']

/-- C5 witness: one minute after the write the read is fresh with the
payload unchanged apart from the cache tags. -/
theorem getMacroPayload_C5_witness :
    ((60000 : ℤ) - snapFix.cachedAt ≤ MACRO_CACHE_TTL_MS) ∧
    (getMacroPayload (some snapFix) 60000 fetchAllFail).1
      = { snapFix.payload with
          cacheState := some "fresh"
          cacheAgeMinutes := some (round1 ((((60000 : ℤ) - snapFix.cachedAt : ℤ) : ℚ) / 60000)) } := by
  exact ⟨by decide, (getMacroPayload_C5 snapFix 60000 fetchAllFail).1 (by decide)⟩

theorem lookupDate_mapSet_self (m : List (String × ℚ)) (k : String) (v : ℚ) :
    lookupDate (mapSet m k v) k = some v := by
  induction m with
  | nil => simp [mapSet, lookupDate]
  | cons kv rest ih =>
      obtain ⟨k0, v0⟩ := kv
      by_cases h : k0 = k
      · simp [mapSet, h, lookupDate]
      · simp [mapSet, h, lookupDate, ih]

theorem lookupDate_mapSet_other (m : List (String × ℚ)) (k : String) (v : ℚ) (q : String)
    (hq : q ≠ k) : lookupDate (mapSet m k v) q = lookupDate m q := by
  induction m with
  | nil => simp [mapSet, lookupDate, Ne.symm hq]
  | cons kv rest ih =>
      obtain ⟨k0, v0⟩ := kv
      by_cases h : k0 = k
      · subst h
        have hne : ¬ k0 = q := fun hx => hq hx.symm
        simp [mapSet, lookupDate, hne]
      · by_cases h2 : k0 = q
        · simp [mapSet, lookupDate, h, h2, hq]
        · simp [mapSet, lookupDate, h, h2, ih]

theorem mapSet_fst (m : List (String × ℚ)) (k : String) (v : ℚ) :
    (mapSet m k v).map Prod.fst
      = if k ∈ m.map Prod.fst then m.map Prod.fst else m.map Prod.fst ++ [k] := by
  induction m with
  | nil => simp [mapSet]
  | cons kv rest ih =>
      obtain ⟨k0, v0⟩ := kv
      by_cases h : k0 = k
      · subst h
        simp [mapSet]
      · by_cases h2 : k ∈ rest.map Prod.fst
        · simp [mapSet, h, ih, h2, List.mem_cons, Ne.symm h]
        · simp [mapSet, h, ih, h2, List.mem_cons, Ne.symm h]

theorem nodup_mapSet (m : List (String × ℚ)) (k : String) (v : ℚ)
    (h : (m.map Prod.fst).Nodup) : ((mapSet m k v).map Prod.fst).Nodup := by
  rw [mapSet_fst]
  split
  · exact h
  · next hk =>
      rw [List.nodup_append]
      exact ⟨h, List.nodup_singleton k, by simpa using hk⟩

theorem nodup_keys_foldl (pts : List RawObs) : ∀ acc : List (String × ℚ),
    (acc.map Prod.fst).Nodup → ((pts.foldl dedupeStep acc).map Prod.fst).Nodup := by
  induction pts with
  | nil => intro acc h; simpa using h
  | cons p rest ih =>
      intro acc h
      rw [List.foldl_cons]
      apply ih
      cases hc : cleanPoint p with
      | none => simpa [dedupeStep, hc] using h
      | some o =>
          simp only [dedupeStep, hc]
          exact nodup_mapSet acc o.date o.value h

theorem lookupDate_none_iff (m : List (String × ℚ)) (d : String) :
    lookupDate m d = none ↔ d ∉ m.map Prod.fst := by
  induction m with
  | nil => simp [lookupDate]
  | cons kv rest ih =>
      obtain ⟨k0, v0⟩ := kv
      by_cases h : k0 = d
      · simp [lookupDate, h]
      · simp [lookupDate, h, ih, Ne.symm h]

theorem mem_iff_lookupDate (m : List (String × ℚ)) (k : String) (v : ℚ) :
    (m.map Prod.fst).Nodup → ((k, v) ∈ m ↔ lookupDate m k = some v) := by
  induction m with
  | nil => intro _; simp [lookupDate]
  | cons kv rest ih =>
      intro h
      obtain ⟨k0, v0⟩ := kv
      rw [List.map_cons, List.nodup_cons] at h
      by_cases hk : k0 = k
      · subst hk
        constructor
        · intro hmem
          rcases List.mem_cons.mp hmem with heq | hmem2
          · injection heq with h1 h2
            subst h2
            simp [lookupDate]
          · exact absurd (List.mem_map_of_mem Prod.fst hmem2) h.1
        · intro hv
          have hv0 : v0 = v := by
            simpa [lookupDate] using hv
          subst hv0
          exact List.mem_cons_self _ _
      · have hlk : lookupDate ((k0, v0) :: rest) k = lookupDate rest k := by
          simp [lookupDate, hk]
        rw [hlk, ← ih h.2, List.mem_cons]
        constructor
        · rintro (heq | hmem)
          · injection heq with h1 h2
            exact absurd h1.symm hk
          · exact hmem
        · exact Or.inr

theorem getLast?_cons_or {α : Type _} (a : α) (l : List α) :
    (a :: l).getLast? = l.getLast?.or (some a) := by
  induction l generalizing a with
  | nil => rfl
  | cons b t ih =>
      rw [List.getLast?_cons_cons, ih b, Option.or_assoc]
      rfl

theorem lookupDate_foldl (pts : List RawObs) : ∀ (acc : List (String × ℚ)) (d : String),
    lookupDate (pts.foldl dedupeStep acc) d
      = (((pts.filterMap cleanPoint).filter (fun o => decide (o.date = d))).getLast?.map
          (fun o => o.value)).or (lookupDate acc d) := by
  induction pts with
  | nil =>
      intro acc d
      simp
  | cons p rest ih =>
      intro acc d
      rw [List.foldl_cons, ih (dedupeStep acc p) d]
      cases hc : cleanPoint p with
      | none => simp [dedupeStep, hc, List.filterMap_cons]
      | some o =>
          by_cases hd : o.date = d
          · have hself : lookupDate (dedupeStep acc p) d = some o.value := by
              simp only [dedupeStep, hc]
              rw [← hd]
              exact lookupDate_mapSet_self acc o.date o.value
            rw [hself]
            have hfull : ((p :: rest).filterMap cleanPoint).filter
                  (fun x => decide (x.date = d))
                = o :: (rest.filterMap cleanPoint).filter (fun x => decide (x.date = d)) := by
              simp [List.filterMap_cons, hc, List.filter_cons, hd]
            rw [hfull, getLast?_cons_or]
            cases hF : ((rest.filterMap cleanPoint).filter
                (fun x => decide (x.date = d))).getLast? with
            | none => rfl
            | some m => rfl
          · have hstep : dedupeStep acc p = mapSet acc o.date o.value := by
              simp [dedupeStep, hc]
            have hfull : ((p :: rest).filterMap cleanPoint).filter
                  (fun x => decide (x.date = d))
                = (rest.filterMap cleanPoint).filter (fun x => decide (x.date = d)) := by
              simp [List.filterMap_cons, hc, List.filter_cons, hd]
            rw [hfull, hstep, lookupDate_mapSet_other acc o.date o.value d
              (fun hx => hd hx.symm)]

theorem getLast?_mem_of_eq {α : Type _} {l : List α} {x : α} (h : l.getLast? = some x) :
    x ∈ l := by
  obtain ⟨hne, hxeq⟩ := List.mem_getLast?_eq_getLast ((Option.mem_def).mpr h)
  rw [hxeq]
  exact List.getLast_mem hne

/-- C8: the merged BTC history is deduplicated by calendar date with
last-write-wins: the output dates are strictly ascending (so no duplicate
survives), a date appears in the output exactly when some valid input point
carries it, and the surviving value for a date is that of the input point
processed last among those carrying it. -/
theorem dedupeByDate_C8 (points : List RawObs) :
    List.Pairwise (fun a b : Obs => dateLt a.date b.date) (dedupeByDate points) ∧
    (∀ d : String,
      (∃ p ∈ points, ∃ o, cleanPoint p = some o ∧ o.date = d) ↔
      (∃ row ∈ dedupeByDate points, row.date = d)) ∧
    (∀ row ∈ dedupeByDate points,
      some row.value
        = (((points.filterMap cleanPoint).filter
            (fun o => decide (o.date = row.date))).getLast?).map (fun o => o.value)) := by
  have hperm : (dedupeByDate points).Perm
      ((points.foldl dedupeStep []).map fun kv => ({ date := kv.1, value := kv.2 } : Obs)) := by
    unfold dedupeByDate
    exact List.perm_insertionSort _ _
  have hsorted : List.Sorted obsLe (dedupeByDate points) := by
    unfold dedupeByDate
    exact List.sorted_insertionSort _ _
  have hkeys : ((points.foldl dedupeStep []).map Prod.fst).Nodup :=
    nodup_keys_foldl points [] (by simp)
  have hlook : ∀ d, lookupDate (points.foldl dedupeStep []) d
      = ((points.filterMap cleanPoint).filter (fun o => decide (o.date = d))).getLast?.map
          (fun o => o.value) := by
    intro d
    rw [lookupDate_foldl points [] d]
    simp [lookupDate]
  have hmapdate : (((points.foldl dedupeStep []).map
        fun kv => ({ date := kv.1, value := kv.2 } : Obs)).map (fun o => o.date))
      = (points.foldl dedupeStep []).map Prod.fst := by
    rw [List.map_map]
    rfl
  have hnodupDates : ((dedupeByDate points).map (fun o => o.date)).Nodup := by
    have hp2 := hperm.map (fun o => o.date)
    rw [hp2.nodup_iff, hmapdate]
    exact hkeys
  have hmem : ∀ row : Obs, row ∈ dedupeByDate points ↔
      (row.date, row.value) ∈ points.foldl dedupeStep [] := by
    intro row
    rw [hperm.mem_iff, List.mem_map]
    constructor
    · rintro ⟨kv, hkv, heq⟩
      obtain ⟨k0, v0⟩ := kv
      cases heq
      exact hkv
    · intro hkv
      exact ⟨(row.date, row.value), hkv, rfl⟩
  refine ⟨?_, ?_, ?_⟩
  · have h1 : List.Pairwise (fun a b : Obs => dateLe a.date b.date) (dedupeByDate points) :=
      hsorted
    have h2 : List.Pairwise (fun a b : Obs => a.date ≠ b.date) (dedupeByDate points) :=
      List.pairwise_map.mp hnodupDates
    exact (h1.and h2).imp (fun hab =>
      lt_of_le_of_ne hab.1 (fun hdata => hab.2 (String.toList_inj.mp hdata)))
  · intro d
    constructor
    · rintro ⟨p, hp, o, hc, hod⟩
      have hoF : o ∈ (points.filterMap cleanPoint).filter (fun x => decide (x.date = d)) := by
        rw [List.mem_filter]
        exact ⟨List.mem_filterMap.mpr ⟨p, hp, hc⟩, by simp [hod]⟩
      have hFne : (points.filterMap cleanPoint).filter (fun x => decide (x.date = d)) ≠ [] :=
        List.ne_nil_of_mem hoF
      have hx := List.getLast?_eq_getLast _ hFne
      have hlkd : lookupDate (points.foldl dedupeStep []) d
          = some ((((points.filterMap cleanPoint).filter
              (fun x => decide (x.date = d))).getLast hFne).value) := by
        rw [hlook d, hx]
        rfl
      have hdmem : d ∈ (points.foldl dedupeStep []).map Prod.fst := by
        by_contra hnot
        have hnone := (lookupDate_none_iff _ d).mpr hnot
        rw [hlkd] at hnone
        exact Option.noConfusion hnone
      obtain ⟨kv, hkv, hkd⟩ := List.mem_map.mp hdmem
      refine ⟨{ date := kv.1, value := kv.2 }, ?_, hkd⟩
      rw [hmem]
      exact hkv
    · rintro ⟨row, hrow, hrd⟩
      have hpair := (hmem row).mp hrow
      have hlkup : lookupDate (points.foldl dedupeStep []) row.date = some row.value :=
        (mem_iff_lookupDate _ _ _ hkeys).mp hpair
      rw [hlook row.date] at hlkup
      cases hF : ((points.filterMap cleanPoint).filter
          (fun x => decide (x.date = row.date))).getLast? with
      | none =>
          rw [hF] at hlkup
          exact Option.noConfusion hlkup
      | some x =>
          have hxF := getLast?_mem_of_eq hF
          have hxFM := (List.mem_filter.mp hxF).1
          have hxdate : x.date = row.date := by
            simpa using (List.mem_filter.mp hxF).2
          obtain ⟨p, hp, hc⟩ := List.mem_filterMap.mp hxFM
          exact ⟨p, hp, x, hc, by rw [hxdate, hrd]⟩
  · intro row hrow
    have hpair := (hmem row).mp hrow
    have hlkup : lookupDate (points.foldl dedupeStep []) row.date = some row.value :=
      (mem_iff_lookupDate _ _ _ hkeys).mp hpair
    rw [hlook row.date] at hlkup
    exact hlkup.symm

/-- C8 witness: with a duplicated date the later value (3, not 1) is the one
the winning filter position carries. -/
theorem dedupeByDate_C8_witness :
    ∃ row ∈ dedupeByDate dupFix, row.date = "2020-01-02" := by
  refine ((dedupeByDate_C8 dupFix).2.1 "2020-01-02").mp ?_
  exact ⟨{ date := "2020-01-02", value := some 1 }, by simp [dupFix],
    { date := "2020-01-02", value := 1 }, rfl, rfl⟩

theorem providerRows_valid (fetched : Option (List RawObs)) (p : RawObs)
    (h : p ∈ providerRows fetched) : p.date ≠ "" ∧ p.value.isSome := by
  cases fetched with
  | none => simp [providerRows] at h
  | some rows =>
      have := (List.mem_filter.mp h).2
      simpa using this

theorem dedupeByDate_ne_nil (points : List RawObs) (p : RawObs) (hp : p ∈ points)
    (o : Obs) (hc : cleanPoint p = some o) : dedupeByDate points ≠ [] := by
  intro hnil
  have hperm : (dedupeByDate points).Perm
      ((points.foldl dedupeStep []).map fun kv => ({ date := kv.1, value := kv.2 } : Obs)) := by
    unfold dedupeByDate
    exact List.perm_insertionSort _ _
  rw [hnil] at hperm
  have hE := hperm.symm.eq_nil
  have hEntries : points.foldl dedupeStep [] = [] := by
    simpa using hE
  have hoF : o ∈ (points.filterMap cleanPoint).filter (fun x => decide (x.date = o.date)) := by
    rw [List.mem_filter]
    exact ⟨List.mem_filterMap.mpr ⟨p, hp, hc⟩, by simp⟩
  have hFne : (points.filterMap cleanPoint).filter (fun x => decide (x.date = o.date)) ≠ [] :=
    List.ne_nil_of_mem hoF
  have hx := List.getLast?_eq_getLast _ hFne
  have hlk := lookupDate_foldl points [] o.date
  rw [hEntries, hx] at hlk
  exact Option.noConfusion hlk

/-- C7: the merged multi-provider BTC series is rejected with an
insufficient-history error exactly when it is empty or has no observation at
or lexicographically before the fixed floor date 2011-01-01; otherwise the
merged series itself is returned. -/
theorem fetchBtcDailySeries_C7 (fred gecko chain : Option (List RawObs)) :
    ((∃ e, fetchBtcDailySeries fred gecko chain = .error e) ↔
      (dedupeByDate (providerRows fred ++ providerRows gecko ++ providerRows chain) = [] ∨
        ∀ row ∈ dedupeByDate (providerRows fred ++ providerRows gecko ++ providerRows chain),
          ¬ dateLe row.date "2011-01-01")) ∧
    (∀ l, fetchBtcDailySeries fred gecko chain = .ok l →
      l = dedupeByDate (providerRows fred ++ providerRows gecko ++ providerRows chain)) := by
  by_cases hs : (providerRows fred ++ providerRows gecko ++ providerRows chain).isEmpty
  · have hsrc : providerRows fred ++ providerRows gecko ++ providerRows chain = [] :=
      List.isEmpty_iff.mp hs
    constructor
    · refine iff_of_true ⟨"Missing BTC daily history from all sources", ?_⟩ (Or.inl ?_)
      · simp only [fetchBtcDailySeries]
        rw [if_pos hs]
      · rw [hsrc]
        rfl
    · intro l hl
      simp only [fetchBtcDailySeries] at hl
      rw [if_pos hs] at hl
      exact Except.noConfusion hl
  · have hne : providerRows fred ++ providerRows gecko ++ providerRows chain ≠ [] := by
      simpa [List.isEmpty_iff] using hs
    obtain ⟨p, hp⟩ := List.exists_mem_of_ne_nil _ hne
    have hvalid : p.date ≠ "" ∧ p.value.isSome := by
      rcases List.mem_append.mp hp with hp1 | hp3
      · rcases List.mem_append.mp hp1 with hpa | hpb
        · exact providerRows_valid fred p hpa
        · exact providerRows_valid gecko p hpb
      · exact providerRows_valid chain p hp3
    obtain ⟨v, hv⟩ := Option.isSome_iff_exists.mp hvalid.2
    have hcp : cleanPoint p = some { date := p.date, value := v } := by
      simp [cleanPoint, hv, hvalid.1]
    have hdne := dedupeByDate_ne_nil _ p hp _ hcp
    by_cases hfloor : (dedupeByDate (providerRows fred ++ providerRows gecko ++
        providerRows chain)).any (fun row => decide (dateLe row.date "2011-01-01"))
    · constructor
      · refine iff_of_false ?_ ?_
        · rintro ⟨e, he⟩
          simp only [fetchBtcDailySeries] at he
          rw [if_neg hs, if_pos hfloor] at he
          exact Except.noConfusion he
        · rintro (hnil | hall)
          · exact hdne hnil
          · obtain ⟨row, hrow, hle⟩ := List.any_eq_true.mp hfloor
            exact hall row hrow (of_decide_eq_true hle)
      · intro l hl
        simp only [fetchBtcDailySeries] at hl
        rw [if_neg hs, if_pos hfloor] at hl
        exact (Except.ok.inj hl).symm
    · constructor
      · refine iff_of_true ⟨"BTC history available but missing pre-2011 coverage", ?_⟩
          (Or.inr ?_)
        · simp only [fetchBtcDailySeries]
          rw [if_neg hs, if_neg hfloor]
        · intro row hrow hle
          exact hfloor (List.any_eq_true.mpr ⟨row, hrow, decide_eq_true hle⟩)
      · intro l hl
        simp only [fetchBtcDailySeries] at hl
        rw [if_neg hs, if_neg hfloor] at hl
        exact Except.noConfusion hl

/-- C7 witness: with every provider failed the resolver reports the
insufficient-history error. -/
theorem fetchBtcDailySeries_C7_witness :
    ∃ e, fetchBtcDailySeries none none none = .error e :=
  (fetchBtcDailySeries_C7 none none none).1.mpr (Or.inl rfl)

/-- C9: while a refresh promise is in flight, a further call reuses it (same
handle, no additional upstream batch), so two calls during one flight issue
exactly one batch of the seven indicator fetches; settling clears the
in-flight handle.  One call from the idle state issues exactly one batch. -/
theorem refreshCall_C9 (s0 : FlightState) (hidle : s0.inflightId = none) :
    (refreshCall (refreshCall s0).2).1 = (refreshCall s0).1 ∧
    (refreshCall (refreshCall s0).2).2 = (refreshCall s0).2 ∧
    (refreshCall s0).2.batchesIssued = s0.batchesIssued + 1 ∧
    (refreshCall (refreshCall s0).2).2.batchesIssued = s0.batchesIssued + 1 ∧
    (refreshSettled (refreshCall (refreshCall s0).2).2).inflightId = none := by
  obtain ⟨i, b⟩ := s0
  have hi : i = none := hidle
  subst hi
  exact ⟨rfl, rfl, rfl, rfl, rfl⟩

/-- C9 witness at the concrete idle state. -/
theorem refreshCall_C9_witness :
    (refreshCall (refreshCall ⟨none, 0⟩).2).1 = (refreshCall ⟨none, 0⟩).1 ∧
    (refreshCall (refreshCall ⟨none, 0⟩).2).2.batchesIssued = 1 := by
  have h := refreshCall_C9 ⟨none, 0⟩ rfl
  exact ⟨h.1, h.2.2.2.1⟩

theorem advance_eq (src : List Obs) (acc : Option ℚ) (d : String) :
    advance src acc d
      = (src.dropWhile (fun o => decide (dateLe o.date d)), asOf src acc d) := by
  induction src generalizing acc with
  | nil => rfl
  | cons o rest ih =>
      by_cases h : dateLe o.date d
      · simp [advance, asOf, List.dropWhile_cons, h, ih]
      · simp [advance, asOf, List.dropWhile_cons, h]

theorem lastValueOf_cons (o : Obs) (t : List Obs) :
    lastValueOf (o :: t) = (lastValueOf t).or (some o.value) := by
  induction t generalizing o with
  | nil => rfl
  | cons b t2 ih =>
      rw [show lastValueOf (o :: b :: t2) = lastValueOf (b :: t2) from rfl, ih b,
        Option.or_assoc]
      rfl

theorem lastValueOf_append (l1 l2 : List Obs) :
    lastValueOf (l1 ++ l2) = (lastValueOf l2).or (lastValueOf l1) := by
  induction l1 with
  | nil => rw [List.nil_append, show lastValueOf ([] : List Obs) = none from rfl, Option.or_none]
  | cons o t ih =>
      rw [List.cons_append, lastValueOf_cons, ih, Option.or_assoc, lastValueOf_cons]

theorem asOf_append_sat (l1 l2 : List Obs) (acc : Option ℚ) (d : String)
    (hsat : ∀ o ∈ l1, dateLe o.date d) :
    asOf (l1 ++ l2) acc d = asOf l2 ((lastValueOf l1).or acc) d := by
  induction l1 generalizing acc with
  | nil => rw [List.nil_append, show lastValueOf ([] : List Obs) = none from rfl]; rfl
  | cons o t ih =>
      rw [List.cons_append, show asOf (o :: (t ++ l2)) acc d
          = if dateLe o.date d then asOf (t ++ l2) (some o.value) d else acc from rfl,
        if_pos (hsat o (List.mem_cons_self o t)),
        ih (some o.value) (fun x hx => hsat x (List.mem_cons_of_mem o hx)),
        lastValueOf_cons, Option.or_assoc]
      rfl

theorem asOf_stop (l : List Obs) (acc : Option ℚ) (d : String)
    (h : ∀ o, l.head? = some o → ¬ dateLe o.date d) : asOf l acc d = acc := by
  cases l with
  | nil => rfl
  | cons o t => simp [asOf, h o rfl]

theorem dropWhile_head_not (l : List Obs) (d : String) (o : Obs)
    (h : (l.dropWhile (fun x => decide (dateLe x.date d))).head? = some o) :
    ¬ dateLe o.date d := by
  induction l with
  | nil => simp at h
  | cons a t ih =>
      by_cases ha : dateLe a.date d
      · rw [List.dropWhile_cons, if_pos (by simpa using ha)] at h
        exact ih h
      · rw [List.dropWhile_cons, if_neg (by simpa using ha)] at h
        have : a = o := by simpa using h
        rw [← this]
        exact ha

theorem asOf_eq_lastValueOf (l : List Obs) (acc : Option ℚ) (d : String) :
    asOf l acc d
      = (lastValueOf (l.takeWhile (fun o => decide (dateLe o.date d)))).or acc := by
  conv_lhs => rw [← List.takeWhile_append_dropWhile (fun o => decide (dateLe o.date d)) l]
  rw [asOf_append_sat _ _ _ _ (fun o ho => by
    have h2 := List.mem_takeWhile_imp ho
    exact of_decide_eq_true h2)]
  exact asOf_stop _ _ _ (fun o ho => dropWhile_head_not l d o ho)

theorem alignLoop_eq (targets : List String) : ∀ (done rem : List Obs),
    List.Chain' dateLe targets →
    (∀ o ∈ done, ∀ d, targets.head? = some d → dateLe o.date d) →
    alignLoop rem (lastValueOf done) targets
      = targets.map (fun d => asOf (done ++ rem) none d) := by
  induction targets with
  | nil => intro done rem _ _; rfl
  | cons d ds ih =>
      intro done rem hchain hdone
      have hsat : ∀ o ∈ done, dateLe o.date d := fun o ho => hdone o ho d rfl
      have hstep : alignLoop rem (lastValueOf done) (d :: ds)
          = asOf rem (lastValueOf done) d
            :: alignLoop (rem.dropWhile (fun o => decide (dateLe o.date d)))
                (asOf rem (lastValueOf done) d) ds := by
        simp only [alignLoop, advance_eq]
      have hsnd : asOf rem (lastValueOf done) d = asOf (done ++ rem) none d := by
        rw [asOf_append_sat done rem none d hsat, Option.or_none]
      have hacc : asOf rem (lastValueOf done) d
          = lastValueOf (done ++ rem.takeWhile (fun o => decide (dateLe o.date d))) := by
        rw [asOf_eq_lastValueOf rem (lastValueOf done) d, lastValueOf_append]
      have hrecomb : done ++ rem
          = (done ++ rem.takeWhile (fun o => decide (dateLe o.date d)))
            ++ rem.dropWhile (fun o => decide (dateLe o.date d)) := by
        rw [List.append_assoc, List.takeWhile_append_dropWhile]
      have hchain2 := List.chain'_cons'.mp hchain
      have hinv : ∀ o ∈ done ++ rem.takeWhile (fun x => decide (dateLe x.date d)),
          ∀ d2, ds.head? = some d2 → dateLe o.date d2 := by
        intro o ho d2 hd2
        have hdd2 : dateLe d d2 := hchain2.1 d2 hd2
        rcases List.mem_append.mp ho with h1 | h2
        · exact le_trans (hsat o h1) hdd2
        · have h3 := List.mem_takeWhile_imp h2
          exact le_trans (of_decide_eq_true h3) hdd2
      rw [hstep, List.map_cons]
      refine congrArg₂ List.cons hsnd ?_
      rw [hacc, ih (done ++ rem.takeWhile (fun o => decide (dateLe o.date d)))
        (rem.dropWhile (fun o => decide (dateLe o.date d))) hchain2.2 hinv]
      simp only [← hrecomb]

theorem asOf_sorted_cases (S : List Obs) (d : String) (hpw : List.Pairwise obsLe S) :
    ∀ acc : Option ℚ,
    (asOf S acc d = acc ∧ ∀ o ∈ S, ¬ dateLe o.date d) ∨
    (∃ m ∈ S, dateLe m.date d ∧ asOf S acc d = some m.value ∧
      ∀ o ∈ S, dateLe o.date d → dateLe o.date m.date) := by
  induction S with
  | nil => intro acc; exact Or.inl ⟨rfl, by simp⟩
  | cons o t ih =>
      rw [List.pairwise_cons] at hpw
      intro acc
      by_cases h : dateLe o.date d
      · have hstep : asOf (o :: t) acc d = asOf t (some o.value) d := by
          simp [asOf, h]
        rcases ih hpw.2 (some o.value) with ⟨heq, hall⟩ | ⟨m, hm, hmd, heq, hmax⟩
        · refine Or.inr ⟨o, List.mem_cons_self o t, h, by rw [hstep, heq], ?_⟩
          intro x hx hxd
          rcases List.mem_cons.mp hx with rfl | hx2
          · exact le_rfl
          · exact absurd hxd (hall x hx2)
        · refine Or.inr ⟨m, List.mem_cons_of_mem o hm, hmd, by rw [hstep, heq], ?_⟩
          intro x hx hxd
          rcases List.mem_cons.mp hx with rfl | hx2
          · exact hpw.1 m hm
          · exact hmax x hx2 hxd
      · refine Or.inl ⟨by simp [asOf, h], ?_⟩
        intro x hx hxd
        rcases List.mem_cons.mp hx with rfl | hx2
        · exact h hxd
        · exact h (le_trans (hpw.1 x hx2) hxd)

/-- C6: for a non-empty source series and ascending target dates,
`alignSeriesToDates` emits one value per target date; a target with no valid
source observation at or before it gets `null`, and otherwise the emitted
value belongs to a valid source observation whose date is at or before the
target and maximal among all such observations (forward-fill / as-of join). -/
theorem alignSeriesToDates_C6 (points : List RawObs) (isoDates : List String)
    (hp : points ≠ []) (hd : List.Chain' dateLe isoDates) :
    (alignSeriesToDates points isoDates).length = isoDates.length ∧
    (∀ i, i < isoDates.length →
      ((¬ ∃ o ∈ points.filterMap cleanPoint, dateLe o.date (isoDates.getD i "")) →
        (alignSeriesToDates points isoDates).getD i none = none) ∧
      ((∃ o ∈ points.filterMap cleanPoint, dateLe o.date (isoDates.getD i "")) →
        ∃ m ∈ points.filterMap cleanPoint, dateLe m.date (isoDates.getD i "") ∧
          (alignSeriesToDates points isoDates).getD i none = some m.value ∧
          ∀ o ∈ points.filterMap cleanPoint, dateLe o.date (isoDates.getD i "") →
            dateLe o.date m.date)) := by
  have hout : alignSeriesToDates points isoDates
      = isoDates.map (fun d =>
          asOf (List.insertionSort obsLe (points.filterMap cleanPoint)) none d) := by
    cases isoDates with
    | nil => simp [alignSeriesToDates]
    | cons d0 ds =>
        have hg : ¬ (points.isEmpty ∨ (d0 :: ds).isEmpty) := by
          simp [List.isEmpty_iff, hp]
        simp only [alignSeriesToDates]
        rw [if_neg hg]
        exact alignLoop_eq (d0 :: ds) []
          (List.insertionSort obsLe (points.filterMap cleanPoint)) hd
          (fun o ho => absurd ho (List.not_mem_nil o))
  rw [hout]
  constructor
  · rw [List.length_map]
  · intro i hi
    rw [getD_map_value _ _ _ hi "" none]
    have hsorted : List.Pairwise obsLe
        (List.insertionSort obsLe (points.filterMap cleanPoint)) :=
      List.sorted_insertionSort _ _
    have hperm : (List.insertionSort obsLe (points.filterMap cleanPoint)).Perm
        (points.filterMap cleanPoint) := List.perm_insertionSort _ _
    rcases asOf_sorted_cases _ (isoDates.getD i "") hsorted none with
      ⟨heq, hall⟩ | ⟨m, hm, hmd, heq, hmax⟩
    · constructor
      · intro _
        exact heq
      · rintro ⟨o, ho, hod⟩
        exact absurd hod (hall o (hperm.mem_iff.mpr ho))
    · constructor
      · intro hno
        exact absurd ⟨m, hperm.mem_iff.mp hm, hmd⟩ hno
      · intro _
        exact ⟨m, hperm.mem_iff.mp hm, hmd, heq,
          fun o ho hod => hmax o (hperm.mem_iff.mpr ho) hod⟩

/-- C6 witness: on the fixture the aligned output has one slot per target
date. -/
theorem alignSeriesToDates_C6_witness :
    (alignSeriesToDates alignPtsFix alignDatesFix).length = 3 := by
  have hch : List.Chain' dateLe alignDatesFix := by
    simp only [alignDatesFix, List.chain'_cons, List.chain'_singleton, and_true]
    exact ⟨by decide, by decide⟩
  have h := (alignSeriesToDates_C6 alignPtsFix alignDatesFix (by simp [alignPtsFix]) hch).1
  simpa [alignDatesFix] using h

end MacroDash
